import Mathlib

/-!
Verification of the autocomplete result transformer of a small Express
server (src/index.ts). The transformer is the pure pipeline
parse → filter → annotate → sort → deduplicate found in the
handler for GET /autocomplete, lines 117-170 of the source.

JavaScript semantics that matter for faithfulness:
  * `arr.slice(-k)` on an array of length `n` starts at index
    `max(n - k, 0)`, so `arr.slice(-k)[0]` is `arr[max(n-k,0)]`
    (or `undefined` when the array is empty);
  * `x || d` returns `d` when `x` is falsy, and for strings the
    falsy values are `undefined` and `""`;
  * `terms[0]` on an empty array is `undefined` (modelled as `none`);
  * template interpolation of `undefined` yields the text "undefined";
  * `Array.prototype.sort` is stable (ES2019).
-/

namespace GooglePlaces

/-- Model of JavaScript `String.prototype.toLowerCase`, mapping each
character to lower case. -/
def jsToLowerCase (s : String) : String :=
  ⟨s.data.map Char.toLower⟩

/-- Substring search on character lists: does the needle occur
contiguously in the haystack? -/
def dataIncludes : List Char → List Char → Bool
  | [], needle => needle.isEmpty
  | h :: t, needle => needle.isPrefixOf (h :: t) || dataIncludes t needle

/-- Model of JavaScript `s.includes(sub)`: `sub` occurs contiguously in `s`. -/
def jsIncludes (s sub : String) : Bool :=
  dataIncludes s.data sub.data

/-- Model of JavaScript `v || d` where `v` is a possibly-undefined string:
the default is taken when `v` is `undefined` or the empty string (the two
falsy string values). -/
def jsOrElse (v : Option String) (d : String) : String :=
  match v with
  | none => d
  | some s => if s = "" then d else s

/-- Model of JavaScript `arr.slice(-k)[0]`: `slice(-k)` starts at index
`max(len - k, 0)` (Nat subtraction truncates), and `[0]` takes the head,
`undefined` when the slice is empty. -/
def sliceNegHead (terms : List String) (k : Nat) : Option String :=
  (terms.drop (terms.length - k)).head?

/-- Model of JavaScript `arr.join(sep)`. -/
def jsJoin (sep : String) : List String → String
  | [] => ""
  | [s] => s
  | s :: rest => s ++ sep ++ jsJoin sep rest

/-- Model of JavaScript `String.prototype.trim`: strip whitespace from
both ends. -/
def jsTrim (s : String) : String :=
  ⟨((s.data.dropWhile Char.isWhitespace).reverse.dropWhile Char.isWhitespace).reverse⟩

/-- The three possible values of the `exactMatch` discriminator of the
source interface `PlaceSuggestion` (besides `null`). -/
inductive ExactMatchField where
  | city
  | state
  | country
deriving DecidableEq

/-- The source interface `PlaceSuggestion`. The `name` field is declared
`string` in the source, but the parser assigns it `terms[0]`, which is
`undefined` for an empty term list, so the model gives it type
`Option String` (`none` = JavaScript `undefined`). `exactMatch` is
`none` for JavaScript `null`. -/
structure PlaceSuggestion where
  name : Option String
  address : String
  city : String
  state : String
  country : String
  exactMatch : Option ExactMatchField
deriving DecidableEq

/-- The parse step: the arrow function mapped over `predictions` at
lines 121-130 of the source, building one `PlaceSuggestion` from one
term list. -/
def parseTerms (terms : List String) : PlaceSuggestion :=
  { name := terms.head?
  , city := jsOrElse (sliceNegHead terms 3) ""
  , state := jsOrElse (sliceNegHead terms 2) ""
  , country := jsOrElse (sliceNegHead terms 1) ""
  , address := jsJoin ", " (terms.drop 1)
  , exactMatch := none }

/-- `placeSuggestions` of the source: parse every prediction. -/
def placeSuggestions (predictions : List (List String)) : List PlaceSuggestion :=
  predictions.map parseTerms

/-- The filter predicate at lines 136-143 of the source: keep a place
when the lowercased input occurs in the lowercased city, state or
country. -/
def keepPlace (inputLower : String) (place : PlaceSuggestion) : Bool :=
  jsIncludes (jsToLowerCase place.city) inputLower ||
  jsIncludes (jsToLowerCase place.state) inputLower ||
  jsIncludes (jsToLowerCase place.country) inputLower

/-- The annotation step at lines 144-154 of the source: set `exactMatch`
to the first of country, state, city whose lowercasing equals the
lowercased input, leaving the previous value when none matches. -/
def annotatePlace (inputLower : String) (place : PlaceSuggestion) : PlaceSuggestion :=
  if jsToLowerCase place.country = inputLower then
    { place with exactMatch := some ExactMatchField.country }
  else if jsToLowerCase place.state = inputLower then
    { place with exactMatch := some ExactMatchField.state }
  else if jsToLowerCase place.city = inputLower then
    { place with exactMatch := some ExactMatchField.city }
  else place

/-- The `priorityOrder` lookup table of line 157 of the source, with the
`|| 'null'` key coalescing of line 158 folded in (`none` plays `null`). -/
def priorityOrder : Option ExactMatchField → Nat
  | some ExactMatchField.city => 3
  | some ExactMatchField.state => 2
  | some ExactMatchField.country => 1
  | none => 0

/-- The comparator of lines 155-159 of the source returns
`priority(b) - priority(a)`; under the ECMAScript sort contract this
keeps `a` before `b` exactly when `priority(b) ≤ priority(a)`. -/
def sortLe (a b : PlaceSuggestion) : Bool :=
  priorityOrder b.exactMatch ≤ priorityOrder a.exactMatch

/-- One step of the stable sort modelling `Array.prototype.sort`:
insert `a` in front of the first element it is `sortLe`-before,
passing only elements of strictly higher priority. -/
def orderedInsertPlace (a : PlaceSuggestion) : List PlaceSuggestion → List PlaceSuggestion
  | [] => [a]
  | b :: l => if sortLe a b then a :: b :: l else b :: orderedInsertPlace a l

/-- Model of `Array.prototype.sort` with the comparator of lines
155-159: ECMAScript 2019 requires a stable sort, and every stable sort
agrees extensionally for a consistent comparator (ours is a total
preorder), so the stable insertion sort is a faithful model. -/
def sortPlaces : List PlaceSuggestion → List PlaceSuggestion
  | [] => []
  | a :: l => orderedInsertPlace a (sortPlaces l)

/-- `filteredResults` of the source: filter, annotate, then stable-sort
descending by priority. -/
def filteredResults (input : String) (predictions : List (List String)) : List PlaceSuggestion :=
  let inputLower := jsToLowerCase input
  sortPlaces (((placeSuggestions predictions).filter (keepPlace inputLower)).map
    (annotatePlace inputLower))

/-- The deduplication key of line 165 of the source, the template string
interpolating `name` and `address` around a bar; interpolation of
JavaScript `undefined` produces the text "undefined". -/
def dedupKey (place : PlaceSuggestion) : String :=
  (match place.name with
   | some s => s
   | none => "undefined") ++ "|" ++ place.address

/-- The loop of lines 162-170 of the source: walk the list keeping a
`seen` set of keys, pushing a place only when its key is unseen. -/
def dedupLoop (seen : List String) : List PlaceSuggestion → List PlaceSuggestion
  | [] => []
  | place :: rest =>
    if seen.contains (dedupKey place) then dedupLoop seen rest
    else place :: dedupLoop (dedupKey place :: seen) rest

/-- `uniqueResults` of the source: deduplicate starting from an empty
seen set. -/
def uniqueResults (results : List PlaceSuggestion) : List PlaceSuggestion :=
  dedupLoop [] results

/-- The whole transform of lines 117-170: parse, filter, annotate, sort,
deduplicate. -/
def autocompleteTransform (input : String) (predictions : List (List String)) : List PlaceSuggestion :=
  uniqueResults (filteredResults input predictions)

example : parseTerms ["Sydney", "NSW", "Australia"] =
    { name := some "Sydney", address := "NSW, Australia", city := "Sydney"
    , state := "NSW", country := "Australia", exactMatch := none } := by decide

example : (parseTerms ["Sydney", "Australia"]).city = "Sydney" := by decide

example : autocompleteTransform "NSW" [["Sydney", "NSW", "Australia"]] =
    [{ name := some "Sydney", address := "NSW, Australia", city := "Sydney"
     , state := "NSW", country := "Australia", exactMatch := some ExactMatchField.state }] := by decide

theorem jsOrElse_empty_eq (v : Option String) : jsOrElse v "" = v.getD "" := by
  cases v with
  | none => rfl
  | some s => by_cases h : s = "" <;> simp [jsOrElse, h]

theorem head?_drop_eq (l : List String) (n : Nat) : (l.drop n).head? = l[n]? := by
  by_cases h : n < l.length
  · rw [List.drop_eq_getElem_cons h]
    simp
  · rw [List.drop_eq_nil_of_le (Nat.le_of_not_lt h)]
    simp [List.getElem?_eq_none (Nat.le_of_not_lt h)]

theorem sliceNegHead_eq (terms : List String) (k : Nat) :
    sliceNegHead terms k = terms[terms.length - k]? := by
  simp [sliceNegHead, head?_drop_eq]

theorem parseTerms_city_eq (terms : List String) :
    (parseTerms terms).city = terms.getD (terms.length - 3) "" := by
  simp [parseTerms, jsOrElse_empty_eq, sliceNegHead_eq]

theorem parseTerms_state_eq (terms : List String) :
    (parseTerms terms).state = terms.getD (terms.length - 2) "" := by
  simp [parseTerms, jsOrElse_empty_eq, sliceNegHead_eq]

theorem parseTerms_country_eq (terms : List String) :
    (parseTerms terms).country = terms.getD (terms.length - 1) "" := by
  simp [parseTerms, jsOrElse_empty_eq, sliceNegHead_eq]

/-- Claim C1, amended: the parsed `city` equals the third-from-last term
when the sequence has at least 3 terms; but for 1 or 2 terms it equals
the FIRST term (because `slice(-3)` clamps its start index to 0), not
the empty string; only an empty term sequence yields an empty `city`. -/
theorem c1_city_of_terms (terms : List String) :
    (3 ≤ terms.length → (parseTerms terms).city = terms.getD (terms.length - 3) "") ∧
    (1 ≤ terms.length → terms.length < 3 → (parseTerms terms).city = terms.getD 0 "") ∧
    (terms.length = 0 → (parseTerms terms).city = "") := by
  refine ⟨fun _ => parseTerms_city_eq terms, fun h1 h2 => ?_, fun h0 => ?_⟩
  · have h3 : terms.length - 3 = 0 := by omega
    rw [parseTerms_city_eq, h3]
  · have he : terms = [] := List.length_eq_zero.mp h0
    subst he
    rfl

/-- Witness for claim C1 at concrete inputs: a 4-term, a 2-term and a
0-term sequence. -/
theorem c1_city_of_terms_witness :
    (parseTerms ["a", "b", "c", "d"]).city = "b" ∧
    (parseTerms ["Sydney", "Australia"]).city = "Sydney" ∧
    (parseTerms ([] : List String)).city = "" :=
  ⟨((c1_city_of_terms ["a", "b", "c", "d"]).1 (by decide)).trans (by decide),
   ((c1_city_of_terms ["Sydney", "Australia"]).2.1 (by decide) (by decide)).trans (by decide),
   (c1_city_of_terms []).2.2 (by decide)⟩

/-- Claim C1 counterexample: on the 2-term sequence
["Sydney", "Australia"] the code yields city = "Sydney", not the empty
string the claim requires for sequences of fewer than 3 terms. -/
theorem c1_counterexample :
    ¬ ((parseTerms ["Sydney", "Australia"]).city = "") := by decide

/-- Claim C2, amended: the parsed `state` equals the second-from-last
term when the sequence has at least 2 terms; but for exactly 1 term it
equals that single term (because `slice(-2)` clamps its start index to
0), not the empty string; only an empty term sequence yields an empty
`state`. -/
theorem c2_state_of_terms (terms : List String) :
    (2 ≤ terms.length → (parseTerms terms).state = terms.getD (terms.length - 2) "") ∧
    (terms.length = 1 → (parseTerms terms).state = terms.getD 0 "") ∧
    (terms.length = 0 → (parseTerms terms).state = "") := by
  refine ⟨fun _ => parseTerms_state_eq terms, fun h1 => ?_, fun h0 => ?_⟩
  · have h2 : terms.length - 2 = 0 := by omega
    rw [parseTerms_state_eq, h2]
  · have he : terms = [] := List.length_eq_zero.mp h0
    subst he
    rfl

/-- Witness for claim C2 at concrete inputs: a 3-term, a 1-term and a
0-term sequence. -/
theorem c2_state_of_terms_witness :
    (parseTerms ["Sydney", "NSW", "Australia"]).state = "NSW" ∧
    (parseTerms ["Sydney"]).state = "Sydney" ∧
    (parseTerms ([] : List String)).state = "" :=
  ⟨((c2_state_of_terms ["Sydney", "NSW", "Australia"]).1 (by decide)).trans (by decide),
   ((c2_state_of_terms ["Sydney"]).2.1 (by decide)).trans (by decide),
   (c2_state_of_terms []).2.2 (by decide)⟩

/-- Claim C2 counterexample: on the 1-term sequence ["Sydney"] the code
yields state = "Sydney", not the empty string the claim requires for
sequences of fewer than 2 terms. -/
theorem c2_counterexample :
    ¬ ((parseTerms ["Sydney"]).state = "") := by decide

/-- Claim C3 (code bug): at the failing input terms = [], the parse step
yields name = undefined (modelled `none`) because `terms[0]` on an empty
array is undefined and, unlike the four other fields, `name` has no
`|| ''` coalescing; this contradicts the declared interface field
`name: string`. The other four string fields are indeed empty, as the
claim states. -/
theorem c3_parse_empty_terms :
    parseTerms [] =
      { name := none, address := "", city := "", state := "", country := ""
      , exactMatch := none } := by decide

theorem annotatePlace_city (il : String) (p : PlaceSuggestion) :
    (annotatePlace il p).city = p.city := by
  simp only [annotatePlace]
  split_ifs <;> rfl

theorem annotatePlace_state (il : String) (p : PlaceSuggestion) :
    (annotatePlace il p).state = p.state := by
  simp only [annotatePlace]
  split_ifs <;> rfl

theorem annotatePlace_country (il : String) (p : PlaceSuggestion) :
    (annotatePlace il p).country = p.country := by
  simp only [annotatePlace]
  split_ifs <;> rfl

theorem mem_of_mem_dedupLoop {p : PlaceSuggestion} {seen : List String}
    {l : List PlaceSuggestion} (h : p ∈ dedupLoop seen l) : p ∈ l := by
  induction l generalizing seen with
  | nil => simp [dedupLoop] at h
  | cons x xs ih =>
    rw [dedupLoop] at h
    split at h
    · exact List.mem_cons_of_mem x (ih h)
    · rcases List.mem_cons.mp h with h1 | h2
      · exact h1 ▸ List.mem_cons_self x xs
      · exact List.mem_cons_of_mem x (ih h2)

theorem orderedInsertPlace_perm (a : PlaceSuggestion) (l : List PlaceSuggestion) :
    List.Perm (orderedInsertPlace a l) (a :: l) := by
  induction l with
  | nil => exact List.Perm.refl _
  | cons b t ih =>
    rw [orderedInsertPlace]
    split
    · exact List.Perm.refl _
    · exact (ih.cons b).trans (List.Perm.swap a b t)

theorem sortPlaces_perm (l : List PlaceSuggestion) : List.Perm (sortPlaces l) l := by
  induction l with
  | nil => exact List.Perm.refl _
  | cons a t ih =>
    rw [sortPlaces]
    exact (orderedInsertPlace_perm a (sortPlaces t)).trans (ih.cons a)

/-- Claim C4: the filter keeps a suggestion exactly when the lowercased
input occurs as a substring of the lowercased city, state or country,
and every suggestion in the final output of the transform passes that
three-way substring test. -/
theorem c4_filter_keeps (input : String) (l : List PlaceSuggestion) (p : PlaceSuggestion)
    (predictions : List (List String)) :
    (p ∈ l.filter (keepPlace (jsToLowerCase input)) ↔
      p ∈ l ∧ (jsIncludes (jsToLowerCase p.city) (jsToLowerCase input) = true ∨
               jsIncludes (jsToLowerCase p.state) (jsToLowerCase input) = true ∨
               jsIncludes (jsToLowerCase p.country) (jsToLowerCase input) = true)) ∧
    (p ∈ autocompleteTransform input predictions →
      (jsIncludes (jsToLowerCase p.city) (jsToLowerCase input) = true ∨
       jsIncludes (jsToLowerCase p.state) (jsToLowerCase input) = true ∨
       jsIncludes (jsToLowerCase p.country) (jsToLowerCase input) = true)) := by
  constructor
  · rw [List.mem_filter]
    simp [keepPlace, Bool.or_eq_true, or_assoc]
  · intro hp
    rw [autocompleteTransform, uniqueResults] at hp
    have h1 : p ∈ filteredResults input predictions := mem_of_mem_dedupLoop hp
    simp only [filteredResults] at h1
    have h2 := (sortPlaces_perm _).mem_iff.mp h1
    rcases List.mem_map.mp h2 with ⟨q, hq, rfl⟩
    have h3 := (List.mem_filter.mp hq).2
    rw [annotatePlace_city, annotatePlace_state, annotatePlace_country]
    simpa [keepPlace, Bool.or_eq_true, or_assoc] using h3

/-- Witness for claim C4: with input "NSW" and the single prediction
["Sydney", "NSW", "Australia"], the surviving annotated suggestion
passes the substring test (here through its state field). -/
theorem c4_filter_keeps_witness :
    jsIncludes (jsToLowerCase "Sydney") (jsToLowerCase "NSW") = true ∨
    jsIncludes (jsToLowerCase "NSW") (jsToLowerCase "NSW") = true ∨
    jsIncludes (jsToLowerCase "Australia") (jsToLowerCase "NSW") = true :=
  (c4_filter_keeps "NSW" []
    { name := some "Sydney", address := "NSW, Australia", city := "Sydney"
    , state := "NSW", country := "Australia", exactMatch := some ExactMatchField.state }
    [["Sydney", "NSW", "Australia"]]).2 (by decide)

/-- Claim C5: annotation checks country, then state, then city for
full-string case-insensitive equality with the input and records the
first match, leaving `exactMatch` unset when none matches; in
particular a suggestion whose country (and possibly also city) equals
the input is annotated country. -/
theorem c5_annotate_priority (inputLower : String) (place : PlaceSuggestion)
    (h : place.exactMatch = none) :
    ((annotatePlace inputLower place).exactMatch =
      (if jsToLowerCase place.country = inputLower then some ExactMatchField.country
       else if jsToLowerCase place.state = inputLower then some ExactMatchField.state
       else if jsToLowerCase place.city = inputLower then some ExactMatchField.city
       else none)) ∧
    (jsToLowerCase place.country = inputLower →
      (annotatePlace inputLower place).exactMatch = some ExactMatchField.country) := by
  constructor
  · simp only [annotatePlace]
    split_ifs <;> simp [h]
  · intro hc
    simp [annotatePlace, hc]

/-- Witness for claim C5, on the contrived suggestion whose country and
city both equal the input exactly: the annotation is country, not city. -/
theorem c5_annotate_priority_witness :
    (annotatePlace "paris"
      { name := some "Paris", address := "", city := "Paris"
      , state := "", country := "Paris", exactMatch := none }).exactMatch =
      some ExactMatchField.country :=
  (c5_annotate_priority "paris"
    { name := some "Paris", address := "", city := "Paris"
    , state := "", country := "Paris", exactMatch := none } rfl).2 (by decide)

/-- A suggestion annotated city, for the concrete example of the sort
claim. -/
def exampleCityAnn : PlaceSuggestion :=
  { name := some "A", address := "", city := "a", state := "", country := ""
  , exactMatch := some ExactMatchField.city }

/-- A suggestion annotated country, for the concrete example of the sort
claim. -/
def exampleCountryAnn : PlaceSuggestion :=
  { name := some "B", address := "", city := "", state := "", country := "b"
  , exactMatch := some ExactMatchField.country }

/-- A suggestion with no annotation, for the concrete example of the
sort claim. -/
def exampleUnsetAnn : PlaceSuggestion :=
  { name := some "C", address := "", city := "", state := "", country := ""
  , exactMatch := none }

theorem orderedInsertPlace_pairwise {a : PlaceSuggestion} {l : List PlaceSuggestion}
    (h : l.Pairwise (fun x y => priorityOrder y.exactMatch ≤ priorityOrder x.exactMatch)) :
    (orderedInsertPlace a l).Pairwise
      (fun x y => priorityOrder y.exactMatch ≤ priorityOrder x.exactMatch) := by
  induction l with
  | nil => simp [orderedInsertPlace]
  | cons b t ih =>
    obtain ⟨hr, ht⟩ := List.pairwise_cons.mp h
    rw [orderedInsertPlace]
    split
    case isTrue hab =>
      have hba : priorityOrder b.exactMatch ≤ priorityOrder a.exactMatch := by
        simpa [sortLe] using hab
      refine List.pairwise_cons.mpr ⟨?_, h⟩
      intro y hy
      rcases List.mem_cons.mp hy with rfl | hyt
      · exact hba
      · exact Nat.le_trans (hr y hyt) hba
    case isFalse hab =>
      have hba : priorityOrder a.exactMatch ≤ priorityOrder b.exactMatch := by
        simp [sortLe] at hab
        omega
      refine List.pairwise_cons.mpr ⟨?_, ih ht⟩
      intro y hy
      rcases List.mem_cons.mp ((orderedInsertPlace_perm a t).mem_iff.mp hy) with rfl | hyt
      · exact hba
      · exact hr y hyt

theorem sortPlaces_pairwise (l : List PlaceSuggestion) :
    (sortPlaces l).Pairwise
      (fun x y => priorityOrder y.exactMatch ≤ priorityOrder x.exactMatch) := by
  induction l with
  | nil => simp [sortPlaces]
  | cons a t ih =>
    rw [sortPlaces]
    exact orderedInsertPlace_pairwise ih

theorem filter_orderedInsertPlace (w : Nat) (a : PlaceSuggestion) (l : List PlaceSuggestion) :
    (orderedInsertPlace a l).filter (fun p => priorityOrder p.exactMatch == w) =
      if priorityOrder a.exactMatch == w
      then a :: l.filter (fun p => priorityOrder p.exactMatch == w)
      else l.filter (fun p => priorityOrder p.exactMatch == w) := by
  induction l with
  | nil =>
    cases hpa : (priorityOrder a.exactMatch == w) <;>
      simp [orderedInsertPlace, List.filter_cons, hpa]
  | cons b t ih =>
    rw [orderedInsertPlace]
    split
    case isTrue hab =>
      cases hpa : (priorityOrder a.exactMatch == w) <;>
        simp [List.filter_cons, hpa]
    case isFalse hab =>
      have hb : priorityOrder a.exactMatch < priorityOrder b.exactMatch := by
        simp [sortLe] at hab
        omega
      cases hpa : (priorityOrder a.exactMatch == w)
      · simp only [Bool.false_eq_true, if_false] at ih ⊢
        simp [List.filter_cons, ih, hpa]
      · have hw : priorityOrder a.exactMatch = w := by simpa using hpa
        have hpb : (priorityOrder b.exactMatch == w) = false := by
          simp
          omega
        simp only [if_true] at ih ⊢
        simp [List.filter_cons, hpb, ih, hpa]

theorem filter_sortPlaces (w : Nat) (l : List PlaceSuggestion) :
    (sortPlaces l).filter (fun p => priorityOrder p.exactMatch == w) =
      l.filter (fun p => priorityOrder p.exactMatch == w) := by
  induction l with
  | nil => rfl
  | cons a t ih =>
    rw [sortPlaces, filter_orderedInsertPlace]
    cases hpa : (priorityOrder a.exactMatch == w) <;> simp [List.filter_cons, hpa, ih]

/-- Claim C6: the sort step is a stable descending sort by the priority
weight city = 3, state = 2, country = 1, unset = 0: the output is
pairwise descending in weight, is a permutation of the input, and for
each weight the subsequence of that weight is unchanged (which is
exactly preservation of relative order among equal-weight suggestions);
finally, on the concrete example of the claim, three suggestions
annotated city, country and unset in that input order come out in that
same order. -/
theorem c6_sort_stable (l : List PlaceSuggestion) :
    (sortPlaces l).Pairwise
      (fun a b => priorityOrder b.exactMatch ≤ priorityOrder a.exactMatch) ∧
    List.Perm (sortPlaces l) l ∧
    (∀ w : Nat, (sortPlaces l).filter (fun p => priorityOrder p.exactMatch == w) =
      l.filter (fun p => priorityOrder p.exactMatch == w)) ∧
    sortPlaces [exampleCityAnn, exampleCountryAnn, exampleUnsetAnn] =
      [exampleCityAnn, exampleCountryAnn, exampleUnsetAnn] :=
  ⟨sortPlaces_pairwise l, sortPlaces_perm l, fun w => filter_sortPlaces w l, by decide⟩

/-- Reference form of first-occurrence deduplication by key: keep the
head, drop every later suggestion with the same key, recurse. -/
def firstOccurrences : List PlaceSuggestion → List PlaceSuggestion
  | [] => []
  | x :: xs =>
    x :: firstOccurrences (xs.filter (fun y => !(dedupKey y == dedupKey x)))
termination_by l => l.length
decreasing_by exact Nat.lt_succ_of_le (List.length_filter_le _ _)

theorem dedupLoop_eq_firstOccurrences (seen : List String) (l : List PlaceSuggestion) :
    dedupLoop seen l =
      firstOccurrences (l.filter (fun y => !seen.contains (dedupKey y))) := by
  induction l generalizing seen with
  | nil => simp [dedupLoop, firstOccurrences]
  | cons x xs ih =>
    rw [dedupLoop, List.filter_cons]
    by_cases hc : seen.contains (dedupKey x) = true
    · rw [if_pos hc]
      simp only [hc, Bool.not_true]
      rw [if_neg (by simp)]
      exact ih seen
    · rw [if_neg hc]
      have hc' : seen.contains (dedupKey x) = false := Bool.eq_false_iff.mpr hc
      simp only [hc', Bool.not_false, if_true]
      rw [firstOccurrences]
      congr 1
      rw [ih (dedupKey x :: seen), List.filter_filter]
      congr 1
      apply List.filter_congr
      intro y hy
      simp [List.contains_cons, Bool.not_or, Bool.and_comm, Bool.beq_eq_decide_eq]

theorem dedupLoop_sublist (seen : List String) (l : List PlaceSuggestion) :
    List.Sublist (dedupLoop seen l) l := by
  induction l generalizing seen with
  | nil => simp [dedupLoop]
  | cons x xs ih =>
    rw [dedupLoop]
    split
    · exact (ih seen).cons x
    · exact (ih _).cons₂ x

theorem dedupLoop_not_seen {seen : List String} {l : List PlaceSuggestion}
    {p : PlaceSuggestion} (h : p ∈ dedupLoop seen l) :
    seen.contains (dedupKey p) = false := by
  induction l generalizing seen with
  | nil => simp [dedupLoop] at h
  | cons x xs ih =>
    rw [dedupLoop] at h
    split at h
    next hc => exact ih h
    next hc =>
      rcases List.mem_cons.mp h with rfl | h2
      · exact Bool.eq_false_iff.mpr hc
      · have h3 := ih h2
        simp only [List.contains_cons, Bool.or_eq_false_iff] at h3
        exact h3.2

theorem dedupLoop_pairwise (seen : List String) (l : List PlaceSuggestion) :
    (dedupLoop seen l).Pairwise (fun a b => dedupKey a ≠ dedupKey b) := by
  induction l generalizing seen with
  | nil => simp [dedupLoop]
  | cons x xs ih =>
    rw [dedupLoop]
    split
    · exact ih seen
    · refine List.pairwise_cons.mpr ⟨?_, ih _⟩
      intro y hy hxy
      have h3 := dedupLoop_not_seen hy
      simp only [List.contains_cons, Bool.or_eq_false_iff] at h3
      exact absurd hxy.symm (by simpa using h3.1)

theorem dedupLoop_covers {p : PlaceSuggestion} (seen : List String)
    (l : List PlaceSuggestion) (hp : p ∈ l) :
    seen.contains (dedupKey p) = true ∨
      ∃ q ∈ dedupLoop seen l, dedupKey q = dedupKey p := by
  induction l generalizing seen with
  | nil => simp at hp
  | cons x xs ih =>
    rw [dedupLoop]
    rcases List.mem_cons.mp hp with rfl | hpxs
    · by_cases hc : seen.contains (dedupKey p) = true
      · exact Or.inl hc
      · rw [if_neg hc]
        exact Or.inr ⟨p, List.mem_cons_self _ _, rfl⟩
    · split
      next hc => exact ih seen hpxs
      next hc =>
        rcases ih (dedupKey x :: seen) hpxs with hseen | ⟨q, hq, hkey⟩
        · simp only [List.contains_cons, Bool.or_eq_true] at hseen
          rcases hseen with heq | hs
          · exact Or.inr ⟨x, List.mem_cons_self _ _, (by simpa using heq : dedupKey p = dedupKey x).symm⟩
          · exact Or.inl hs
        · exact Or.inr ⟨q, List.mem_cons_of_mem x hq, hkey⟩

/-- The parse of the one-term prediction ["a|b"]; its deduplication key
is "a|b|". -/
def collideA : PlaceSuggestion := parseTerms ["a|b"]

/-- The parse of the two-term prediction ["a", "b|"]; its deduplication
key is also "a|b|" although its (name, address) pair differs from that
of `collideA`. -/
def collideB : PlaceSuggestion := parseTerms ["a", "b|"]

/-- Claim C7 counterexample: the two suggestions have different
(name, address) pairs, yet deduplication drops the second because the
template key interpolates the bar ambiguously, so a suggestion whose
pair differs from all earlier ones is dropped. -/
theorem c7_counterexample :
    uniqueResults [collideA, collideB] = [collideA] ∧
    ¬(collideB.name = collideA.name ∧ collideB.address = collideA.address) := by
  decide

/-- Claim C7, amended: deduplication keeps the first occurrence of each
unique key, where the key is the template string interpolating name and
address around a bar, not the (name, address) pair itself: the output is
`firstOccurrences` (keep head, drop later same-key entries, recurse), a
sublist of the input with pairwise-distinct keys in which every input
key is represented. Distinct pairs whose keys collide are merged. -/
theorem c7_dedup_first_by_key (l : List PlaceSuggestion) :
    uniqueResults l = firstOccurrences l ∧
    List.Sublist (uniqueResults l) l ∧
    (uniqueResults l).Pairwise (fun a b => dedupKey a ≠ dedupKey b) ∧
    (∀ p ∈ l, ∃ q ∈ uniqueResults l, dedupKey q = dedupKey p) := by
  refine ⟨?_, dedupLoop_sublist [] l, dedupLoop_pairwise [] l, ?_⟩
  · rw [uniqueResults, dedupLoop_eq_firstOccurrences]
    congr 1
    simp
  · intro p hp
    rcases dedupLoop_covers [] l hp with hseen | hex
    · simp at hseen
    · exact hex

/-- Witness for claim C7 at a concrete input: the key of the dropped
colliding suggestion is still represented in the output. -/
theorem c7_dedup_first_by_key_witness :
    ∃ q ∈ uniqueResults [collideA, collideB], dedupKey q = dedupKey collideB :=
  (c7_dedup_first_by_key [collideA, collideB]).2.2.2 collideB (by decide)

/-- Claim C10: no two distinct elements of the transform output agree on
both name and address: equality of the pair forces equality of the
deduplication keys, which are pairwise distinct in the output. -/
theorem c10_output_pairwise_distinct (input : String) (predictions : List (List String)) :
    (autocompleteTransform input predictions).Pairwise
      (fun a b => ¬(a.name = b.name ∧ a.address = b.address)) := by
  have h := dedupLoop_pairwise [] (filteredResults input predictions)
  rw [autocompleteTransform, uniqueResults]
  exact h.imp (fun hk hab => hk (by simp [dedupKey, hab.1, hab.2]))

/-- Checked model of calling `.toLowerCase()` on a possibly-undefined
value: a JavaScript TypeError when the receiver is undefined. The parse
step coalesces city, state and country with `|| ''`, so the receivers
fed to it below are always defined; the `name` field, which CAN be
undefined, is never a method receiver in the source. -/
def jsToLowerCaseChecked (v : Option String) : Except String String :=
  match v with
  | some s => Except.ok (jsToLowerCase s)
  | none => Except.error "TypeError: toLowerCase of undefined"

/-- The filter callback of lines 136-143 evaluated under the checked
dynamic semantics, short-circuiting like the JavaScript disjunction. -/
def keepPlaceChecked (inputLower : String) (place : PlaceSuggestion) : Except String Bool := do
  let c ← jsToLowerCaseChecked (some place.city)
  if jsIncludes c inputLower then
    return true
  else
    let s ← jsToLowerCaseChecked (some place.state)
    if jsIncludes s inputLower then
      return true
    else
      let k ← jsToLowerCaseChecked (some place.country)
      return jsIncludes k inputLower

/-- The annotation callback of lines 144-154 evaluated under the
checked dynamic semantics. -/
def annotatePlaceChecked (inputLower : String) (place : PlaceSuggestion) :
    Except String PlaceSuggestion := do
  let k ← jsToLowerCaseChecked (some place.country)
  if k = inputLower then
    return { place with exactMatch := some ExactMatchField.country }
  else
    let s ← jsToLowerCaseChecked (some place.state)
    if s = inputLower then
      return { place with exactMatch := some ExactMatchField.state }
    else
      let c ← jsToLowerCaseChecked (some place.city)
      if c = inputLower then
        return { place with exactMatch := some ExactMatchField.city }
      else
        return place

/-- `Array.prototype.filter` with an effectful callback, evaluated
left to right. -/
def filterME (p : PlaceSuggestion → Except String Bool) :
    List PlaceSuggestion → Except String (List PlaceSuggestion)
  | [] => Except.ok []
  | x :: xs => do
    let b ← p x
    let rest ← filterME p xs
    return if b then x :: rest else rest

/-- `Array.prototype.map` with an effectful callback, evaluated left to
right. -/
def mapME (f : PlaceSuggestion → Except String PlaceSuggestion) :
    List PlaceSuggestion → Except String (List PlaceSuggestion)
  | [] => Except.ok []
  | x :: xs => do
    let y ← f x
    let rest ← mapME f xs
    return y :: rest

/-- The whole pipeline evaluated under the checked dynamic semantics:
any method call on an undefined receiver would surface as an error
value. The sort comparator and the deduplication loop perform no method
calls on possibly-undefined values (object indexing and template
interpolation of undefined are defined in JavaScript), so they stay
pure. -/
def autocompleteTransformChecked (input : String) (predictions : List (List String)) :
    Except String (List PlaceSuggestion) := do
  let inputLower := jsToLowerCase input
  let kept ← filterME (keepPlaceChecked inputLower) (placeSuggestions predictions)
  let annotated ← mapME (annotatePlaceChecked inputLower) kept
  return uniqueResults (sortPlaces annotated)

theorem keepPlaceChecked_eq (il : String) (p : PlaceSuggestion) :
    keepPlaceChecked il p = Except.ok (keepPlace il p) := by
  simp only [keepPlaceChecked, keepPlace, jsToLowerCaseChecked, bind, Except.bind]
  cases h1 : jsIncludes (jsToLowerCase p.city) il <;>
    cases h2 : jsIncludes (jsToLowerCase p.state) il <;>
      cases h3 : jsIncludes (jsToLowerCase p.country) il <;>
        simp [h1, h2, h3, pure, Except.pure]

theorem annotatePlaceChecked_eq (il : String) (p : PlaceSuggestion) :
    annotatePlaceChecked il p = Except.ok (annotatePlace il p) := by
  simp only [annotatePlaceChecked, annotatePlace, jsToLowerCaseChecked, bind, Except.bind]
  split_ifs <;> simp [pure, Except.pure]

theorem filterME_eq {p' : PlaceSuggestion → Except String Bool}
    {p : PlaceSuggestion → Bool} (h : ∀ x, p' x = Except.ok (p x))
    (l : List PlaceSuggestion) : filterME p' l = Except.ok (l.filter p) := by
  induction l with
  | nil => rfl
  | cons x xs ih =>
    rw [filterME, h x, ih]
    simp only [bind, Except.bind, pure, Except.pure, List.filter_cons]

theorem mapME_eq {f' : PlaceSuggestion → Except String PlaceSuggestion}
    {f : PlaceSuggestion → PlaceSuggestion} (h : ∀ x, f' x = Except.ok (f x))
    (l : List PlaceSuggestion) : mapME f' l = Except.ok (l.map f) := by
  induction l with
  | nil => rfl
  | cons x xs ih =>
    rw [mapME, h x, ih]
    simp [bind, Except.bind, pure, Except.pure]

/-- Claim C8: the transform is total. Under the checked dynamic
semantics, in which every method call on a possibly-undefined receiver
raises a modelled TypeError, the pipeline completes without error for
every input string and every list of term sequences (including 0-, 1-
and 2-term sequences), returning exactly the pure transform result. -/
theorem c8_transform_total (input : String) (predictions : List (List String)) :
    autocompleteTransformChecked input predictions =
      Except.ok (autocompleteTransform input predictions) := by
  rw [autocompleteTransformChecked,
    filterME_eq (keepPlaceChecked_eq (jsToLowerCase input)) (placeSuggestions predictions)]
  simp only [bind, Except.bind]
  rw [mapME_eq (annotatePlaceChecked_eq (jsToLowerCase input))]
  simp [pure, Except.pure, autocompleteTransform, filteredResults]

/-- The possible handler outcomes for GET /autocomplete: 400 for a bad
request, 500 when the upstream status is not OK, or the serialized
transform output. -/
inductive AutocompleteResponse where
  | badRequest
  | upstreamError
  | results (body : List PlaceSuggestion)
deriving DecidableEq

/-- The HTTP handler of lines 85-178: validate the input query
parameter (missing means undefined, hence falsy; empty string is falsy;
blank after trim is rejected too), consult the upstream service, and on
success run the transform on the parsed predictions. -/
def handleAutocomplete (input : Option String)
    (upstream : Except Unit (List (List String))) : AutocompleteResponse :=
  match input with
  | none => AutocompleteResponse.badRequest
  | some s =>
    if s = "" then AutocompleteResponse.badRequest
    else if jsTrim s = "" then AutocompleteResponse.badRequest
    else
      match upstream with
      | Except.error _ => AutocompleteResponse.upstreamError
      | Except.ok predictions =>
        AutocompleteResponse.results (autocompleteTransform s predictions)

/-- Claim C9: a missing or blank-after-trim input makes the handler
answer with the client error before the transform runs, and conversely
any result-carrying response comes from a defined, non-empty, non-blank
input string, so the transform is never invoked on an empty input. -/
theorem c9_blank_input_rejected (input : Option String)
    (upstream : Except Unit (List (List String))) :
    ((input = none ∨ ∃ s, input = some s ∧ jsTrim s = "") →
      handleAutocomplete input upstream = AutocompleteResponse.badRequest) ∧
    (∀ body, handleAutocomplete input upstream = AutocompleteResponse.results body →
      ∃ s predictions, input = some s ∧ s ≠ "" ∧ jsTrim s ≠ "" ∧
        upstream = Except.ok predictions ∧
        body = autocompleteTransform s predictions) := by
  constructor
  · intro h
    rcases h with rfl | ⟨s, rfl, hs⟩
    · rfl
    · by_cases he : s = ""
      · simp [handleAutocomplete, he]
      · simp [handleAutocomplete, he, hs]
  · intro body hb
    cases input with
    | none => simp [handleAutocomplete] at hb
    | some s =>
      by_cases he : s = ""
      · simp [handleAutocomplete, he] at hb
      · by_cases ht : jsTrim s = ""
        · simp [handleAutocomplete, he, ht] at hb
        · cases upstream with
          | error e => simp [handleAutocomplete, he, ht] at hb
          | ok predictions =>
            simp only [handleAutocomplete, he, ht, if_false,
              AutocompleteResponse.results.injEq] at hb
            exact ⟨s, predictions, rfl, he, ht, rfl, hb.symm⟩

/-- Witness for claim C9: a blank input is rejected with the client
error, and a successful response arises from a concrete non-blank
input. -/
theorem c9_blank_input_rejected_witness :
    handleAutocomplete (some " ") (Except.ok []) = AutocompleteResponse.badRequest ∧
    (∃ s predictions, (some "NSW" : Option String) = some s ∧ s ≠ "" ∧ jsTrim s ≠ "" ∧
      (Except.ok [["Sydney", "NSW", "Australia"]] : Except Unit (List (List String))) =
        Except.ok predictions ∧
      autocompleteTransform "NSW" [["Sydney", "NSW", "Australia"]] =
        autocompleteTransform s predictions) :=
  ⟨(c9_blank_input_rejected (some " ") (Except.ok [])).1 (Or.inr ⟨" ", rfl, by decide⟩),
   (c9_blank_input_rejected (some "NSW") (Except.ok [["Sydney", "NSW", "Australia"]])).2
     (autocompleteTransform "NSW" [["Sydney", "NSW", "Australia"]]) (by decide)⟩

end GooglePlaces
